import Mathlib

/-!
Verification of the loose-object backend of `git-odb` (`src/loose/object.rs`):
hash-to-path mapping, ASCII header parsing, the `find` lookup pipeline and the
deferred-completion `Object::parsed` operation.  Bytes are modelled as `Nat`
(all meaningful values are below 256), byte slices as `List Nat`, filesystem
paths as lists of path components.
-/

namespace Loose

/-- A filesystem path, as the list of its components (each a byte string). -/
abbrev Path := List (List Nat)

/-- ASCII bytes of a string literal (all our literals are pure ASCII). -/
def bytesOfAscii (s : String) : List Nat := s.data.map Char.toNat

/-- The four loose object kinds, from `git_object::Kind`. -/
inductive Kind
  | Blob
  | Tree
  | Commit
  | Tag
deriving DecidableEq, Repr

/-- Modelled from the spec: `git_object::Kind::from_bytes` (crate `git-object`,
not under `src/`).  The kind token must be drawn from the fixed lowercase
vocabulary `blob`, `tree`, `commit`, `tag`; anything else is an error
(surfaced by the caller as `ObjectHeader`). -/
def Kind.from_bytes (s : List Nat) : Option Kind :=
  if s = bytesOfAscii "blob" then some .Blob
  else if s = bytesOfAscii "tree" then some .Tree
  else if s = bytesOfAscii "commit" then some .Commit
  else if s = bytesOfAscii "tag" then some .Tag
  else none

/-- Whether a byte is an ASCII decimal digit. -/
def isDigitByte (b : Nat) : Bool := 48 ≤ b && b ≤ 57

/-- Value of a most-significant-first ASCII digit string. -/
def digitsToNat (s : List Nat) : Nat := s.foldl (fun a b => a * 10 + (b - 48)) 0

/-- Modelled from the spec: `btoi::btoi` (external crate, not under `src/`).
The size token must be a non-negative base-10 integer written with ASCII
digits only: no sign, no whitespace, no other bytes, and not empty. -/
def btoi (s : List Nat) : Option Nat :=
  if s ≠ [] ∧ s.all isDigitByte then some (digitsToNat s) else none

/-- The error type of the loose backend (`Error` in `loose/object.rs`).
Payloads are kept insofar as the spec talks about them. -/
inductive Err
  | Decompress
  | DecompressFile (path : Path)
  | ParseTag
  | ParseIntegerError (msg : String) (number : List Nat)
  | ObjectHeader
  | InvalidHeader (msg : String)
  | ParseUsize (number : List Nat)
  | Io (action : String) (path : Path)
deriving DecidableEq, Repr

/-- Embedding of `Iterator::position`: index of the first byte satisfying
`p`. -/
def position (p : Nat → Bool) : List Nat → Option Nat
  | [] => none
  | b :: rest => if p b then some 0 else (position p rest).map (· + 1)

/-- Rust `slice::split(|&b| b == sep)`: splits on every separator byte,
keeping empty pieces; always yields at least one piece. -/
def splitByte (sep : Nat) : List Nat → List (List Nat)
  | [] => [[]]
  | b :: rest =>
    if b = sep then [] :: splitByte sep rest
    else
      match splitByte sep rest with
      | [] => [[b]]
      | t :: ts => (b :: t) :: ts

/-- Embedding of `parse_header` (`loose/object.rs` lines 107-128): find the
first NUL, split the bytes before it on spaces, decode kind and size from the
first two pieces, and return the offset one past the NUL. -/
def parse_header (input : List Nat) : Except Err (Kind × Nat × Nat) :=
  match position (fun b => b == 0) input with
  | none => .error (.InvalidHeader "Did not find 0 byte in header")
  | some header_end =>
    match splitByte 32 (input.take header_end) with
    | kind :: size :: _ =>
      match Kind.from_bytes kind with
      | none => .error .ObjectHeader
      | some k =>
        match btoi size with
        | none =>
          .error (.ParseIntegerError
            "Object size was not valid UTF-8 or ascii for that matter" size)
        | some n => .ok (k, n, header_end + 1)
    | _ => .error (.InvalidHeader "Expected <type> <size>")

/-- The bytes of a kind name as written in a loose header. -/
def Kind.nameBytes : Kind → List Nat
  | .Blob => bytesOfAscii "blob"
  | .Tree => bytesOfAscii "tree"
  | .Commit => bytesOfAscii "commit"
  | .Tag => bytesOfAscii "tag"

/-- Decimal ASCII encoding of a natural number (standard `Display` form:
no sign, no leading zeros, `"0"` for zero). -/
def natToDecimal (n : Nat) : List Nat :=
  if n = 0 then [48] else ((Nat.digits 10 n).map (· + 48)).reverse

/-- The on-disk header encoding of a kind and size. -/
def encode_header (k : Kind) (n : Nat) : List Nat :=
  k.nameBytes ++ 32 :: natToDecimal n ++ [0]

/-- Lowercase hex digit of a nibble (`0-9` then `a-f`). -/
def hexChar (n : Nat) : Nat := if n < 10 then 48 + n else 87 + n

/-- Modelled from the spec: `hex::ToHex::write_hex` (external crate, not under
`src/`): lowercase hex encoding of a byte slice, zero-padded to two hex
characters per byte. -/
def hexOfBytes (bs : List Nat) : List Nat :=
  bs.flatMap fun b => [hexChar (b / 16), hexChar (b % 16)]

/-- Embedding of `sha1_path` (`loose/object.rs` lines 130-149): hex-encode the
20-byte id and push the first two characters and the remaining characters as
two path components under `root`. -/
def sha1_path (id : List Nat) (root : Path) : Path :=
  let buf := hexOfBytes id
  root ++ [buf.take 2, buf.drop 2]

/-- Modelled from the spec: `HEADER_READ_COMPRESSED_BYTES` (`loose/mod.rs`,
not under `src/`), the fixed size of the bounded probe read of compressed
bytes ("a tuned constant, not derived per-object"). -/
def HEADER_READ_COMPRESSED_BYTES : Nat := 256

/-- Modelled from the spec: `HEADER_READ_UNCOMPRESSED_BYTES` (`loose/mod.rs`,
not under `src/`), the fixed size of the bounded probe decompression output
buffer. -/
def HEADER_READ_UNCOMPRESSED_BYTES : Nat := 512

/-- The loose `Object` handle (`loose/object.rs` lines 57-65). -/
structure Object where
  kind : Kind
  size : Nat
  decompressed_data : List Nat
  compressed_data : List Nat
  header_size : Nat
  opt_path : Option Path
  is_decompressed : Bool
deriving DecidableEq, Repr

/-- A fixed-size stack buffer a prefix of which has been written: the written
bytes followed by the zero-initialised remainder, total length `n`
(`let mut buf = [0; n]` after a partial write of `l`). -/
def padTo (n : Nat) (l : List Nat) : List Nat :=
  l.take n ++ List.replicate (n - l.length) 0

/-- Model of `Cursor::new(&mut buf[..])` followed by a sequential write of `out`:
`out` overwrites `buf` from position 0, truncated to the buffer length;
the length of the buffer never changes. -/
def writeAll (buf out : List Nat) : List Nat :=
  out.take buf.length ++ buf.drop out.length

/-- Observable I/O actions performed by `Db::find`, in order. -/
inductive IOEvent
  | openF
  | readProbe (n : Nat)
  | inflateOnce (n : Nat)
  | metadata
  | reserveExact (n : Nat)
  | readExact (n : Nat)
deriving DecidableEq, Repr

/-- Modelled from the spec: the environment a single `Db::find` call observes.
`file` is the content of the file at the mapped path (`none` = open fails);
`probeOut`/`probeDone` are the output and completion flag of the single-shot
`zlib::Inflate::once` probe (the deflate codec is outside `src/`, §4.3 of the
spec); the `Ok` flags say whether the probe read, the probe decompression, the
metadata query and the remainder `read_exact` succeed. -/
structure FsEnv where
  file : Option (List Nat)
  probeReadOk : Bool
  probeOut : List Nat
  probeDone : Bool
  probeOk : Bool
  metadataOk : Bool
  readExactOk : Bool
deriving DecidableEq, Repr

/-- The store handle: just the configured root path (`loose::Db`). -/
structure Db where
  path : Path
deriving DecidableEq, Repr

/-- Embedding of `Db::find` (`loose/object.rs` lines 152-223), instrumented
with the list of I/O events it performs.  Mirrors the source: map the id to a
path, open, bounded probe read, single-shot decompress, parse the header from
the probe output, then branch on the kind (Blob keeps the path and stops;
Tree/Commit/Tag stat the file and, unless the probe read already covered it,
reserve exactly the file size and fill the rest with one exact read). -/
def Db.find (db : Db) (id : List Nat) (env : FsEnv) :
    Except Err Object × List IOEvent :=
  let path := sha1_path id db.path
  match env.file with
  | none => (.error (.Io "open" path), [.openF])
  | some content =>
    if !env.probeReadOk then (.error (.Io "read" path), [.openF])
    else
      let bytes_read := min HEADER_READ_COMPRESSED_BYTES content.length
      if !env.probeOk then
        (.error (.DecompressFile path), [.openF, .readProbe bytes_read])
      else
        let consumed_out := min env.probeOut.length HEADER_READ_UNCOMPRESSED_BYTES
        let probeBytes := env.probeOut.take HEADER_READ_UNCOMPRESSED_BYTES
        let base := [IOEvent.openF, .readProbe bytes_read, .inflateOnce consumed_out]
        match parse_header probeBytes with
        | .error e => (.error e, base)
        | .ok (kind, size, header_size) =>
          let decompressed := padTo HEADER_READ_UNCOMPRESSED_BYTES probeBytes
          let compressed := padTo HEADER_READ_COMPRESSED_BYTES (content.take bytes_read)
          match kind with
          | .Blob =>
            (.ok { kind := .Blob, size, decompressed_data := decompressed,
                   compressed_data := compressed, header_size,
                   opt_path := some path, is_decompressed := env.probeDone },
             base)
          | k =>
            if !env.metadataOk then
              (.error (.Io "read metadata" path), base ++ [.metadata])
            else
              let fsize := content.length
              if bytes_read = fsize then
                (.ok { kind := k, size, decompressed_data := decompressed,
                       compressed_data := compressed, header_size,
                       opt_path := none, is_decompressed := env.probeDone },
                 base ++ [.metadata])
              else
                let evs := base ++ [IOEvent.metadata, .reserveExact fsize,
                  .readExact (fsize - bytes_read)]
                if !env.readExactOk then (.error (.Io "read" path), evs)
                else
                  (.ok { kind := k, size, decompressed_data := decompressed,
                         compressed_data := content, header_size,
                         opt_path := none, is_decompressed := env.probeDone },
                   evs)

/-- An inflate engine for the drive-to-completion phase: given the whole
remaining compressed input and the output size, either fail (`none`, a
malformed deflate stream) or produce the written bytes together with the
end-of-stream flag `is_done` (modelled from the spec, §4.3: the codec itself
lives outside `src/`). -/
abbrev Engine := List Nat → Nat → Option (List Nat × Bool)

/-- Outcome of the completion phase of `Object::parsed` (lines 71-95),
carrying the mutated handle; `panic` is the `debug_assert!(deflate.is_done)`
failing. -/
inductive CompOutcome
  | done (o : Object)
  | zerr (o : Object)
  | panic
deriving DecidableEq, Repr

/-- Embedding of the `if !self.is_decompressed` body of `Object::parsed`
(lines 71-95): resize the decompressed buffer to `header_size + size`
(`reserve_exact` + `set_len`, the fresh region modelled as zeros since it is
overwritten before any read), run the engine over the entire compressed
buffer, store the engine completion flag in `is_decompressed`, assert
completion, and release the compressed buffer. -/
def completeDecompression (eng : Engine) (o : Object) : CompOutcome :=
  match eng o.compressed_data (o.header_size + o.size) with
  | none =>
    .zerr { o with
      decompressed_data := (o.decompressed_data.take (o.header_size + o.size) ++
        List.replicate (o.header_size + o.size - o.decompressed_data.length) 0) }
  | some (out, isDone) =>
    if isDone then
      .done { o with
        decompressed_data := (writeAll (o.decompressed_data.take
          (o.header_size + o.size) ++ List.replicate
          (o.header_size + o.size - o.decompressed_data.length) 0) out),
        is_decompressed := true,
        compressed_data := [] }
    else .panic

/-- Result of `Object::parsed`, generic over the structured tag
representation `T`; carries the handle as mutated by the call.  `panic`
covers `unimplemented!()` (Blob, and the structured parsing of Commit/Tree)
and a failing debug assertion. -/
inductive ParseOutcome (T : Type)
  | ok (t : T) (o : Object)
  | err (e : Err) (o : Object)
  | panic
deriving DecidableEq, Repr

/-- Embedding of the structured-parsing tail of `Object::parsed` (lines
96-100): parse `decompressed_data[header_size..]` according to the kind.
`tagParse` stands for `borrowed::Tag::from_bytes` (crate `git-object`, not
under `src/`), a pure function of the payload bytes; `none` is a tag-grammar
error, surfaced as `ParseTag`. -/
def parseStructured {T : Type} (tagParse : List Nat → Option T) (o : Object) :
    ParseOutcome T :=
  match o.kind with
  | .Tag =>
    match tagParse (o.decompressed_data.drop o.header_size) with
    | some t => .ok t o
    | none => .err .ParseTag o
  | _ => .panic

/-- Embedding of `Object::parsed` (lines 68-104): Blob is `unimplemented!()`;
for Tag/Commit/Tree, the completion flag gates the decompression phase, after
which the structured representation is parsed from the payload bytes. -/
def Object.parsed {T : Type} (eng : Engine) (tagParse : List Nat → Option T)
    (o : Object) : ParseOutcome T :=
  match o.kind with
  | .Blob => .panic
  | _ =>
    if o.is_decompressed then parseStructured tagParse o
    else
      match completeDecompression eng o with
      | .zerr o' => .err .Decompress o'
      | .panic => .panic
      | .done o' => parseStructured tagParse o'

/-- Bool test: is the result an `InvalidHeader` error? -/
def isInvalidHeader : Except Err (Kind × Nat × Nat) → Bool
  | .error (.InvalidHeader _) => true
  | _ => false

/-- Bool test used by the C2 counterexample: the handle violates the claimed
invariant, having the completion flag set while the compressed buffer is
non-empty and the decompressed buffer does not hold `header_size + size`
bytes. -/
def violatesC2 : Except Err Object → Bool
  | .ok o =>
    o.is_decompressed && !o.compressed_data.isEmpty &&
      o.decompressed_data.length != o.header_size + o.size
  | .error _ => false

/-- Environment of the C2 counterexample: a 10-byte loose tag file whose
bounded probe decompresses the complete object `"tag 0\x00"` in one shot
(`is_done` true), every I/O step succeeding. -/
def envC2 : FsEnv :=
  { file := some [1, 2, 3, 4, 5, 6, 7, 8, 9, 10], probeReadOk := true,
    probeOut := [116, 97, 103, 32, 48, 0], probeDone := true, probeOk := true,
    metadataOk := true, readExactOk := true }

/-- A fully-probed tag handle used by the C8 witness: header `"tag 4\x00"`
followed by the four payload bytes, completion flag set. -/
def objC8 : Object :=
  { kind := .Tag, size := 4,
    decompressed_data := [116, 97, 103, 32, 52, 0, 9, 9, 9, 9],
    compressed_data := [], header_size := 6, opt_path := none,
    is_decompressed := true }

/-- A pending tag handle used by the C9 and C2 witnesses: header `"tag 2\x00"`
known from the probe, compressed remainder retained, completion flag clear. -/
def objC9 : Object :=
  { kind := .Tag, size := 2,
    decompressed_data := [116, 97, 103, 32, 50, 0],
    compressed_data := [7, 7], header_size := 6, opt_path := none,
    is_decompressed := false }

/-- An engine for witnesses that fully writes the output region and reports
end-of-stream. -/
def engDone : Engine := fun _ n => some (List.replicate n 1, true)

/-- An engine for witnesses that fails at once (malformed stream). -/
def engFail : Engine := fun _ _ => none

/-- A structured tag parser for witnesses: returns the payload bytes. -/
def tpId : List Nat → Option (List Nat) := fun bs => some bs

/-- Environment of the C6 witness: a 10-byte blob file whose probe
decompresses the header `"blob 4\x00"`. -/
def envC6 : FsEnv :=
  { file := some [1, 2, 3, 4, 5, 6, 7, 8, 9, 10], probeReadOk := true,
    probeOut := [98, 108, 111, 98, 32, 52, 0], probeDone := false,
    probeOk := true, metadataOk := true, readExactOk := true }

/-- Environment of the C7 witness: a 300-byte tag file (larger than the
bounded probe read) whose probe decompresses the header `"tag 200\x00"`. -/
def envC7 : FsEnv :=
  { file := some (List.replicate 300 5), probeReadOk := true,
    probeOut := [116, 97, 103, 32, 50, 48, 48, 0], probeDone := false,
    probeOk := true, metadataOk := true, readExactOk := true }

/-- Environment of the C10 witness: a 2-byte file whose probe decompresses
to three bytes containing no NUL, so no header terminator is in the probe. -/
def envC10 : FsEnv :=
  { file := some [9, 9], probeReadOk := true, probeOut := [1, 2, 3],
    probeDone := false, probeOk := true, metadataOk := true,
    readExactOk := true }

/-! ### Helper lemmas about `position`, `splitByte`, digits and buffers -/

theorem writeAll_length (buf out : List Nat) :
    (writeAll buf out).length = buf.length := by
  simp [writeAll]
  omega

theorem resize_length (l : List Nat) (n : Nat) :
    (l.take n ++ List.replicate (n - l.length) 0).length = n := by
  simp
  omega

theorem position_append_zero (l : List Nat) (h : ∀ b ∈ l, b ≠ 0) :
    position (fun b => b == 0) (l ++ [0]) = some l.length := by
  induction l with
  | nil => rfl
  | cons a l ih =>
    have ha : a ≠ 0 := h a (by simp)
    simp only [List.cons_append, position, beq_iff_eq, if_neg ha, List.append_eq]
    rw [ih fun b hb => h b (by simp [hb])]
    rfl

theorem position_eq_none (l : List Nat) (h : ∀ b ∈ l, b ≠ 0) :
    position (fun b => b == 0) l = none := by
  induction l with
  | nil => rfl
  | cons a l ih =>
    have ha : a ≠ 0 := h a (by simp)
    simp only [position, beq_iff_eq, if_neg ha]
    rw [ih fun b hb => h b (by simp [hb])]
    rfl

theorem splitByte_ne_nil (sep : Nat) (l : List Nat) : splitByte sep l ≠ [] := by
  cases l with
  | nil => simp [splitByte]
  | cons b rest =>
    simp only [splitByte]
    split
    · simp
    · split <;> simp

theorem splitByte_no_sep (sep : Nat) (l : List Nat) (h : ∀ b ∈ l, b ≠ sep) :
    splitByte sep l = [l] := by
  induction l with
  | nil => rfl
  | cons a l ih =>
    have ha : a ≠ sep := h a (by simp)
    simp only [splitByte, if_neg ha]
    rw [ih fun b hb => h b (by simp [hb])]

theorem splitByte_sep_append (sep : Nat) (l₁ l₂ : List Nat)
    (h : ∀ b ∈ l₁, b ≠ sep) :
    splitByte sep (l₁ ++ sep :: l₂) = l₁ :: splitByte sep l₂ := by
  induction l₁ with
  | nil => simp [splitByte]
  | cons a l ih =>
    have ha : a ≠ sep := h a (by simp)
    simp only [List.cons_append, splitByte, if_neg ha, List.append_eq]
    rw [ih fun b hb => h b (by simp [hb])]

theorem splitByte_of_mem (sep : Nat) (l : List Nat) (h : sep ∈ l) :
    ∃ a b t, splitByte sep l = a :: b :: t := by
  induction l with
  | nil => cases h
  | cons x xs ih =>
    by_cases hx : x = sep
    · subst hx
      obtain ⟨b, t, hbt⟩ : ∃ b t, splitByte x xs = b :: t := by
        cases hs : splitByte x xs with
        | nil => exact absurd hs (splitByte_ne_nil x xs)
        | cons b t => exact ⟨b, t, rfl⟩
      exact ⟨[], b, t, by simp [splitByte, hbt]⟩
    · have hmem : sep ∈ xs := by
        cases h with
        | head => exact absurd rfl hx
        | tail _ h => exact h
      obtain ⟨a, b, t, habt⟩ := ih hmem
      exact ⟨x :: a, b, t, by simp [splitByte, hx, habt]⟩

theorem nameBytes_sound (k : Kind) : ∀ b ∈ k.nameBytes, b ≠ 0 ∧ b ≠ 32 := by
  cases k <;> decide

theorem natToDecimal_digits (n : Nat) :
    ∀ b ∈ natToDecimal n, 48 ≤ b ∧ b ≤ 57 := by
  intro b hb
  unfold natToDecimal at hb
  split at hb
  · simp at hb
    omega
  · simp only [List.mem_reverse, List.mem_map] at hb
    obtain ⟨d, hd, rfl⟩ := hb
    have : d < 10 := Nat.digits_lt_base (by norm_num) hd
    omega

theorem from_bytes_nameBytes (k : Kind) :
    Kind.from_bytes k.nameBytes = some k := by
  cases k <;> decide

theorem foldl_digits (ds : List Nat) (acc : Nat) :
    List.foldl (fun a b => a * 10 + (b - 48)) acc ((ds.map (· + 48)).reverse)
      = acc * 10 ^ ds.length + Nat.ofDigits 10 ds := by
  rw [List.foldl_reverse]
  induction ds generalizing acc with
  | nil => simp
  | cons d ds ih =>
    simp only [List.map_cons, List.foldr_cons, ih, Nat.ofDigits_cons,
      List.length_cons, Nat.add_sub_cancel, pow_succ]
    ring

theorem btoi_natToDecimal (n : Nat) : btoi (natToDecimal n) = some n := by
  have hne : natToDecimal n ≠ [] := by
    unfold natToDecimal
    split
    · simp
    · simp [Nat.digits_ne_nil_iff_ne_zero, *]
  have hall : (natToDecimal n).all isDigitByte = true := by
    rw [List.all_eq_true]
    intro b hb
    have := natToDecimal_digits n b hb
    simp [isDigitByte]
    omega
  have hval : digitsToNat (natToDecimal n) = n := by
    unfold digitsToNat natToDecimal
    split
    · simp [List.foldl]
      omega
    · rw [foldl_digits]
      simpa using Nat.ofDigits_digits 10 n
  simp [btoi, hne, hall, hval]

/-! ### Claim C1: header round-trip -/

/-- Claim C1 (confirmed): for every kind and every size, parsing the encoded
header returns exactly that kind and size together with the length of the
encoding, the offset one past the NUL terminator. -/
theorem claim1_header_roundtrip (k : Kind) (n : Nat) :
    parse_header (encode_header k n) = .ok (k, n, (encode_header k n).length) := by
  have hE : encode_header k n = (k.nameBytes ++ 32 :: natToDecimal n) ++ [0] := by
    simp [encode_header]
  have h0 : ∀ b ∈ k.nameBytes ++ 32 :: natToDecimal n, b ≠ 0 := by
    intro b hb
    rcases List.mem_append.mp hb with h | h
    · exact (nameBytes_sound k b h).1
    · rcases List.mem_cons.mp h with rfl | h
      · omega
      · have := natToDecimal_digits n b h
        omega
  have hkb : ∀ b ∈ k.nameBytes, b ≠ 32 := fun b hb => (nameBytes_sound k b hb).2
  have hds : ∀ b ∈ natToDecimal n, b ≠ 32 := by
    intro b hb
    have := natToDecimal_digits n b hb
    omega
  rw [hE]
  unfold parse_header
  rw [position_append_zero _ h0]
  simp only [List.take_left, splitByte_sep_append 32 _ _ hkb,
    splitByte_no_sep 32 _ hds, from_bytes_nameBytes, btoi_natToDecimal]
  simp
  omega

/-! ### Claim C3: exact characterisation of `InvalidHeader` -/

/-- Claim C3 counterexample: the bytes before the NUL of `"tag 3 x\x00"`
split into three space-separated tokens (not exactly two non-empty ones), yet
`parse_header` succeeds with `(Tag, 3, 8)` instead of returning
`InvalidHeader` as the claim demands. -/
theorem claim3_counterexample :
    (splitByte 32 [116, 97, 103, 32, 51, 32, 120]).length = 3 ∧
      parse_header [116, 97, 103, 32, 51, 32, 120, 0] = .ok (.Tag, 3, 8) :=
  ⟨by decide, by rfl⟩

/-- Claim C3 (corrected): `parse_header` returns `InvalidHeader` exactly when
the input has no NUL byte, or the bytes before the first NUL contain no space
byte; any input with a NUL and a space before it proceeds to kind/size
decoding and never yields `InvalidHeader`. -/
theorem claim3_invalid_header_iff (input : List Nat) :
    isInvalidHeader (parse_header input) =
      match position (fun b => b == 0) input with
      | none => true
      | some i => !((input.take i).contains 32) := by
  unfold parse_header
  cases hp : position (fun b => b == 0) input with
  | none => rfl
  | some i =>
    simp only []
    by_cases hc : 32 ∈ input.take i
    · obtain ⟨a, b, t, habt⟩ := splitByte_of_mem 32 (input.take i) hc
      rw [habt]
      have hcon : (input.take i).contains 32 = true := by
        simpa [List.contains] using hc
      rw [hcon]
      simp only []
      cases hk : Kind.from_bytes a with
      | none => rfl
      | some k =>
        simp only []
        cases hb : btoi b with
        | none => rfl
        | some n => rfl
    · have hns : ∀ b ∈ input.take i, b ≠ 32 := fun b hb h => hc (h ▸ hb)
      rw [splitByte_no_sep 32 _ hns]
      have hcon : (input.take i).contains 32 = false := by
        simpa [List.contains] using hc
      rw [hcon]
      rfl

/-! ### Claim C4: `ParseIntegerError` on malformed size tokens -/

/-- Claim C4 counterexample: `"xyz 12a\x00"` has the malformed size token
`"12a"` (so `btoi` rejects it), yet `parse_header` fails with `ObjectHeader`
(the kind token is decoded first and `"xyz"` is unknown), not with
`ParseIntegerError` as the claim demands for every such header. -/
theorem claim4_counterexample :
    btoi [49, 50, 97] = none ∧
      parse_header [120, 121, 122, 32, 49, 50, 97, 0] = .error .ObjectHeader :=
  ⟨by decide, by rfl⟩

/-- Claim C4 (corrected): for every header that reaches size decoding — it
has a NUL, the bytes before it split on spaces into at least two tokens, and
the kind token is recognized — a size token rejected by `btoi` (empty, or
containing any byte other than an ASCII digit) makes `parse_header` fail with
`ParseIntegerError` carrying the raw bytes of the size token. -/
theorem claim4_parse_integer_error (input : List Nat) (i : Nat)
    (kindTok sizeTok : List Nat) (rest : List (List Nat)) (k : Kind)
    (h0 : position (fun b => b == 0) input = some i)
    (hs : splitByte 32 (input.take i) = kindTok :: sizeTok :: rest)
    (hk : Kind.from_bytes kindTok = some k)
    (hb : ¬(sizeTok ≠ [] ∧ sizeTok.all isDigitByte)) :
    parse_header input = .error (.ParseIntegerError
      "Object size was not valid UTF-8 or ascii for that matter" sizeTok) := by
  unfold parse_header
  rw [h0]
  simp only []
  rw [hs]
  simp only []
  rw [hk]
  simp only []
  have : btoi sizeTok = none := by
    unfold btoi
    rw [if_neg hb]
  rw [this]

/-- Witness for C4: the header `"tag 12a\x00"` reaches size decoding and
fails with `ParseIntegerError` carrying the bytes of `"12a"`. -/
theorem claim4_witness :
    parse_header [116, 97, 103, 32, 49, 50, 97, 0] = .error (.ParseIntegerError
      "Object size was not valid UTF-8 or ascii for that matter" [49, 50, 97]) :=
  claim4_parse_integer_error [116, 97, 103, 32, 49, 50, 97, 0] 7
    [116, 97, 103] [49, 50, 97] [] .Tag (by decide) (by decide) (by decide)
    (by decide)

/-! ### Claim C5: the hash-to-path mapper -/

theorem hexOfBytes_length (bs : List Nat) :
    (hexOfBytes bs).length = 2 * bs.length := by
  induction bs with
  | nil => rfl
  | cons b bs ih =>
    simp only [hexOfBytes, List.flatMap_cons, List.length_append] at *
    simp [ih]
    omega

theorem hexOfBytes_lower (bs : List Nat) (hb : ∀ b ∈ bs, b < 256) :
    ∀ c ∈ hexOfBytes bs, (48 ≤ c ∧ c ≤ 57) ∨ (97 ≤ c ∧ c ≤ 102) := by
  intro c hc
  simp only [hexOfBytes, List.mem_flatMap] at hc
  obtain ⟨b, hmem, hc⟩ := hc
  have hnib : ∀ m : Nat, m < 16 → (48 ≤ hexChar m ∧ hexChar m ≤ 57) ∨
      (97 ≤ hexChar m ∧ hexChar m ≤ 102) := by
    intro m hm
    unfold hexChar
    split <;> omega
  have h16a : b / 16 < 16 := by
    have := hb b hmem
    omega
  have h16b : b % 16 < 16 := Nat.mod_lt _ (by norm_num)
  simp only [List.mem_cons, List.mem_singleton] at hc
  rcases hc with rfl | rfl | h
  · exact hnib _ h16a
  · exact hnib _ h16b
  · cases h

/-- Claim C5 (confirmed): `sha1_path` is total over all 20-byte hashes and
every root; it appends exactly two components to the root, the first of
length 2, whose concatenation is the 40-character lowercase hex encoding of
the hash (digits `0-9` and letters `a-f` only). -/
theorem claim5_sha1_path (id : List Nat) (root : Path)
    (h20 : id.length = 20) (hb : ∀ b ∈ id, b < 256) :
    sha1_path id root =
        root ++ [(hexOfBytes id).take 2, (hexOfBytes id).drop 2] ∧
      ((hexOfBytes id).take 2).length = 2 ∧
      (hexOfBytes id).take 2 ++ (hexOfBytes id).drop 2 = hexOfBytes id ∧
      (hexOfBytes id).length = 40 ∧
      ∀ c ∈ hexOfBytes id, (48 ≤ c ∧ c ≤ 57) ∨ (97 ≤ c ∧ c ≤ 102) := by
  have hlen : (hexOfBytes id).length = 40 := by
    rw [hexOfBytes_length, h20]
  refine ⟨rfl, ?_, List.take_append_drop 2 _, hlen, hexOfBytes_lower id hb⟩
  rw [List.length_take, hlen]
  decide

/-- Witness for C5 at the hash `00 01 ... 13`. -/
theorem claim5_witness :
    sha1_path (List.range 20) [[114]] =
        [[114]] ++ [(hexOfBytes (List.range 20)).take 2,
          (hexOfBytes (List.range 20)).drop 2] ∧
      ((hexOfBytes (List.range 20)).take 2).length = 2 ∧
      (hexOfBytes (List.range 20)).take 2 ++ (hexOfBytes (List.range 20)).drop 2 =
        hexOfBytes (List.range 20) ∧
      (hexOfBytes (List.range 20)).length = 40 ∧
      ∀ c ∈ hexOfBytes (List.range 20),
        (48 ≤ c ∧ c ≤ 57) ∨ (97 ≤ c ∧ c ≤ 102) :=
  claim5_sha1_path (List.range 20) [[114]] (by decide) (by decide)

/-! ### Helper lemmas about `parsed` -/

theorem parseStructured_ok_inv {T : Type} (tp : List Nat → Option T)
    (o : Object) (t : T) (o' : Object)
    (h : parseStructured tp o = .ok t o') :
    o' = o ∧ o.kind = .Tag ∧
      tp (o.decompressed_data.drop o.header_size) = some t := by
  unfold parseStructured at h
  cases hk : o.kind <;> rw [hk] at h <;> try simp only [] at h
  case Blob => exact absurd h (by simp)
  case Tree => exact absurd h (by simp)
  case Commit => exact absurd h (by simp)
  case Tag =>
    cases htp : tp (o.decompressed_data.drop o.header_size) <;> rw [htp] at h
    · exact absurd h (by simp)
    · injection h with h1 h2
      exact ⟨h2.symm, rfl, by rw [h1]⟩

theorem completeDecompression_done_inv (eng : Engine) (o o'' : Object)
    (h : completeDecompression eng o = .done o'') :
    o''.is_decompressed = true ∧ o''.compressed_data = [] ∧
      o''.kind = o.kind ∧ o''.size = o.size ∧
      o''.header_size = o.header_size ∧ o''.opt_path = o.opt_path ∧
      o''.decompressed_data.length = o.header_size + o.size := by
  unfold completeDecompression at h
  cases heng : eng o.compressed_data (o.header_size + o.size) with
  | none =>
    rw [heng] at h
    exact absurd h (by simp)
  | some p =>
    obtain ⟨out, d⟩ := p
    rw [heng] at h
    simp only [] at h
    cases d with
    | false =>
      rw [if_neg Bool.false_ne_true] at h
      exact absurd h (by simp)
    | true =>
      rw [if_pos rfl] at h
      injection h with h1
      subst h1
      refine ⟨rfl, rfl, rfl, rfl, rfl, rfl, ?_⟩
      simp only [writeAll_length, resize_length]

theorem parsed_nonblob_eq {T : Type} (eng : Engine) (tp : List Nat → Option T)
    (o : Object) (hnb : o.kind ≠ .Blob) :
    Object.parsed eng tp o =
      if o.is_decompressed then parseStructured tp o
      else
        match completeDecompression eng o with
        | .zerr o' => .err .Decompress o'
        | .panic => .panic
        | .done o' => parseStructured tp o' := by
  unfold Object.parsed
  cases hk : o.kind
  case Blob => exact absurd hk hnb
  all_goals rfl

theorem parsed_blob_eq {T : Type} (eng : Engine) (tp : List Nat → Option T)
    (o : Object) (hb : o.kind = .Blob) :
    Object.parsed eng tp o = .panic := by
  unfold Object.parsed
  rw [hb]

theorem parsed_ok_inv {T : Type} (eng : Engine) (tp : List Nat → Option T)
    (o : Object) (t : T) (o' : Object)
    (hok : Object.parsed eng tp o = .ok t o') :
    o'.kind = .Tag ∧ o'.is_decompressed = true ∧
      tp (o'.decompressed_data.drop o'.header_size) = some t := by
  by_cases hb : o.kind = .Blob
  · rw [parsed_blob_eq eng tp o hb] at hok
    exact absurd hok (by simp)
  · rw [parsed_nonblob_eq eng tp o hb] at hok
    cases hflag : o.is_decompressed <;> rw [hflag] at hok
    · rw [if_neg Bool.false_ne_true] at hok
      cases hcd : completeDecompression eng o with
      | zerr o1 =>
        rw [hcd] at hok
        exact absurd hok (by simp)
      | panic =>
        rw [hcd] at hok
        exact absurd hok (by simp)
      | done o'' =>
        rw [hcd] at hok
        simp only [] at hok
        obtain ⟨hfl, _, _, _, _, _, _⟩ :=
          completeDecompression_done_inv eng o o'' hcd
        obtain ⟨rfl, hko, htp⟩ := parseStructured_ok_inv tp o'' t o' hok
        exact ⟨hko, hfl, htp⟩
    · rw [if_pos rfl] at hok
      obtain ⟨rfl, hko, htp⟩ := parseStructured_ok_inv tp o t o' hok
      exact ⟨hko, hflag, htp⟩

/-! ### Claim C8: idempotence of completion -/

/-- Claim C8 (confirmed): if `parsed` returned `Ok` once, a second call on
the returned handle yields the same structured result and the same handle —
with any engine at all, i.e. the completion flag gates re-entry into the
decompression branch and the engine is never consulted again. -/
theorem claim8_parsed_idempotent {T : Type} (eng eng' : Engine)
    (tp : List Nat → Option T) (o : Object) (t : T) (o' : Object)
    (hok : Object.parsed eng tp o = .ok t o') :
    Object.parsed eng' tp o' = .ok t o' := by
  obtain ⟨hk, hflag, htp⟩ := parsed_ok_inv eng tp o t o' hok
  rw [parsed_nonblob_eq eng' tp o' (by simp [hk]), hflag, if_pos rfl]
  unfold parseStructured
  rw [hk]
  simp only []
  rw [htp]

/-- Witness for C8: a fully-probed tag handle parses to its payload bytes,
and by the theorem the second call with a different engine returns the same
result unchanged. -/
theorem claim8_witness :
    Object.parsed engFail tpId objC8 = .ok [9, 9, 9, 9] objC8 :=
  claim8_parsed_idempotent engDone engFail tpId objC8 [9, 9, 9, 9] objC8
    (by rfl)

/-! ### Claim C9: completion postcondition -/

/-- Claim C9 (confirmed): entering `parsed` with the completion flag clear,
when the drive-to-completion engine returns without error (and the
completion assertion does not fire, which the source checks with
`debug_assert!`), the flag is set, the compressed buffer is released, the
decompressed buffer is resized to exactly `header_size + size` bytes, and
only then does structured parsing run on the resulting handle. -/
theorem claim9_completion_postcondition (eng : Engine) (o : Object)
    (out : List Nat) (d : Bool)
    (hflag : o.is_decompressed = false)
    (heng : eng o.compressed_data (o.header_size + o.size) = some (out, d))
    (hnp : completeDecompression eng o ≠ .panic) :
    ∃ o', completeDecompression eng o = .done o' ∧
      o'.is_decompressed = true ∧ o'.compressed_data = [] ∧
      o'.decompressed_data.length = o.header_size + o.size ∧
      (∀ (T : Type) (tp : List Nat → Option T), o.kind ≠ .Blob →
        Object.parsed eng tp o = parseStructured tp o') := by
  have hd : d = true := by
    by_contra hdf
    apply hnp
    unfold completeDecompression
    rw [heng]
    simp only []
    rw [if_neg (by simpa using hdf)]
  subst hd
  have hdone : completeDecompression eng o = .done
      { o with
        decompressed_data := (writeAll (o.decompressed_data.take
          (o.header_size + o.size) ++ List.replicate
          (o.header_size + o.size - o.decompressed_data.length) 0) out),
        is_decompressed := true,
        compressed_data := [] } := by
    unfold completeDecompression
    rw [heng]
    rfl
  refine ⟨_, hdone, rfl, rfl, by simp only [writeAll_length, resize_length], ?_⟩
  intro T tp hnb
  rw [parsed_nonblob_eq eng tp o hnb, hflag, if_neg Bool.false_ne_true, hdone]

set_option maxRecDepth 8000 in
/-- Witness for C9: a pending tag handle completed by an engine that reports
end-of-stream ends with the flag set, the compressed buffer empty and an
8-byte decompressed buffer. -/
theorem claim9_witness :
    ∃ o', completeDecompression engDone objC9 = .done o' ∧
      o'.is_decompressed = true ∧ o'.compressed_data = [] ∧
      o'.decompressed_data.length = objC9.header_size + objC9.size ∧
      (∀ (T : Type) (tp : List Nat → Option T), objC9.kind ≠ .Blob →
        Object.parsed engDone tp objC9 = parseStructured tp o') :=
  claim9_completion_postcondition engDone objC9 (List.replicate 8 1) true
    (by rfl) (by rfl) (by simp [completeDecompression, engDone, objC9])

/-! ### Claim C2: the completion-flag invariant -/

set_option maxRecDepth 100000 in
/-- Claim C2 counterexample: `find` on a loose tag file that is fully
decompressed by the bounded probe returns a handle with `is_decompressed`
true whose compressed buffer still holds the whole probe array (non-empty)
and whose decompressed buffer holds the probe array length rather than
`header_size + size` bytes — refuting the claimed invariant for handles
produced by `Db::find`. -/
theorem claim2_counterexample :
    violatesC2 (Db.find ⟨[]⟩ [] envC2).1 = true := by decide

/-- Claim C2 (corrected): the invariant holds for handles mutated by
`Object::parsed`: a handle entering `parsed` with the flag clear that
returns `Ok` has the flag set, exactly `header_size + size` bytes of
decompressed data, and an empty compressed buffer. -/
theorem claim2_parsed_invariant {T : Type} (eng : Engine)
    (tp : List Nat → Option T) (o : Object) (t : T) (o' : Object)
    (hflag : o.is_decompressed = false)
    (hok : Object.parsed eng tp o = .ok t o') :
    o'.is_decompressed = true ∧ o'.compressed_data = [] ∧
      o'.decompressed_data.length = o'.header_size + o'.size := by
  by_cases hb : o.kind = .Blob
  · rw [parsed_blob_eq eng tp o hb] at hok
    exact absurd hok (by simp)
  · rw [parsed_nonblob_eq eng tp o hb, hflag, if_neg Bool.false_ne_true] at hok
    cases hcd : completeDecompression eng o with
    | zerr o1 =>
      rw [hcd] at hok
      exact absurd hok (by simp)
    | panic =>
      rw [hcd] at hok
      exact absurd hok (by simp)
    | done o'' =>
      rw [hcd] at hok
      simp only [] at hok
      obtain ⟨hfl, hce, _, hsz, hhs, _, hdl⟩ :=
        completeDecompression_done_inv eng o o'' hcd
      obtain ⟨rfl, _, _⟩ := parseStructured_ok_inv tp o'' t o' hok
      exact ⟨hfl, hce, by rw [hdl, hsz, hhs]⟩

/-- Witness for C2 (amended): completing the pending tag handle with a
terminating engine yields a handle satisfying the invariant. -/
theorem claim2_witness :
    ∃ o', Object.parsed engDone tpId objC9 = .ok [1, 1] o' ∧
      o'.is_decompressed = true ∧ o'.compressed_data = [] ∧
      o'.decompressed_data.length = o'.header_size + o'.size := by
  refine ⟨{ kind := .Tag, size := 2, decompressed_data := [1, 1, 1, 1, 1, 1, 1, 1], compressed_data := [], header_size := 6, opt_path := none, is_decompressed := true }, by rfl, ?_⟩
  exact claim2_parsed_invariant engDone tpId objC9 [1, 1] _ (by rfl) (by rfl)

/-! ### Helper lemmas about `Db.find` -/

theorem padTo_length (n : Nat) (l : List Nat) : (padTo n l).length = n := by
  simp [padTo]
  omega

theorem parse_header_no_nul (input : List Nat) (h : ∀ b ∈ input, b ≠ 0) :
    parse_header input =
      .error (.InvalidHeader "Did not find 0 byte in header") := by
  unfold parse_header
  rw [position_eq_none input h]

theorem find_eq_parse_error (db : Db) (id : List Nat) (env : FsEnv)
    (content : List Nat) (e : Err)
    (hf : env.file = some content) (hr : env.probeReadOk = true)
    (hp : env.probeOk = true)
    (hpr : parse_header (env.probeOut.take HEADER_READ_UNCOMPRESSED_BYTES) =
      .error e) :
    Db.find db id env = (.error e,
      [.openF, .readProbe (min HEADER_READ_COMPRESSED_BYTES content.length),
       .inflateOnce (min env.probeOut.length HEADER_READ_UNCOMPRESSED_BYTES)]) := by
  simp [Db.find, hf, hr, hp, hpr]

theorem find_eq_blob (db : Db) (id : List Nat) (env : FsEnv)
    (content : List Nat) (size hs : Nat)
    (hf : env.file = some content) (hr : env.probeReadOk = true)
    (hp : env.probeOk = true)
    (hpr : parse_header (env.probeOut.take HEADER_READ_UNCOMPRESSED_BYTES) =
      .ok (.Blob, size, hs)) :
    Db.find db id env =
      (.ok
        { kind := .Blob,
          size := size,
          decompressed_data := (padTo HEADER_READ_UNCOMPRESSED_BYTES
            (env.probeOut.take HEADER_READ_UNCOMPRESSED_BYTES)),
          compressed_data := (padTo HEADER_READ_COMPRESSED_BYTES
            (content.take (min HEADER_READ_COMPRESSED_BYTES content.length))),
          header_size := hs,
          opt_path := some (sha1_path id db.path),
          is_decompressed := env.probeDone },
      [.openF, .readProbe (min HEADER_READ_COMPRESSED_BYTES content.length),
       .inflateOnce (min env.probeOut.length HEADER_READ_UNCOMPRESSED_BYTES)]) := by
  simp [Db.find, hf, hr, hp, hpr]

theorem find_eq_nonblob_metafail (db : Db) (id : List Nat) (env : FsEnv)
    (content : List Nat) (k : Kind) (size hs : Nat)
    (hf : env.file = some content) (hr : env.probeReadOk = true)
    (hp : env.probeOk = true)
    (hpr : parse_header (env.probeOut.take HEADER_READ_UNCOMPRESSED_BYTES) =
      .ok (k, size, hs))
    (hk : k ≠ .Blob) (hm : env.metadataOk = false) :
    Db.find db id env = (.error (.Io "read metadata" (sha1_path id db.path)),
      [.openF, .readProbe (min HEADER_READ_COMPRESSED_BYTES content.length),
       .inflateOnce (min env.probeOut.length HEADER_READ_UNCOMPRESSED_BYTES),
       .metadata]) := by
  cases k
  case Blob => exact absurd rfl hk
  all_goals simp [Db.find, hf, hr, hp, hpr, hm]

theorem find_eq_nonblob_small (db : Db) (id : List Nat) (env : FsEnv)
    (content : List Nat) (k : Kind) (size hs : Nat)
    (hf : env.file = some content) (hr : env.probeReadOk = true)
    (hp : env.probeOk = true)
    (hpr : parse_header (env.probeOut.take HEADER_READ_UNCOMPRESSED_BYTES) =
      .ok (k, size, hs))
    (hk : k ≠ .Blob) (hm : env.metadataOk = true)
    (hsmall : min HEADER_READ_COMPRESSED_BYTES content.length = content.length) :
    Db.find db id env =
      (.ok
        { kind := k,
          size := size,
          decompressed_data := (padTo HEADER_READ_UNCOMPRESSED_BYTES
            (env.probeOut.take HEADER_READ_UNCOMPRESSED_BYTES)),
          compressed_data := (padTo HEADER_READ_COMPRESSED_BYTES
            (content.take (min HEADER_READ_COMPRESSED_BYTES content.length))),
          header_size := hs,
          opt_path := none,
          is_decompressed := env.probeDone },
      [.openF, .readProbe (min HEADER_READ_COMPRESSED_BYTES content.length),
       .inflateOnce (min env.probeOut.length HEADER_READ_UNCOMPRESSED_BYTES),
       .metadata]) := by
  cases k
  case Blob => exact absurd rfl hk
  all_goals simp [Db.find, hf, hr, hp, hpr, hm, hsmall]

theorem find_eq_nonblob_large (db : Db) (id : List Nat) (env : FsEnv)
    (content : List Nat) (k : Kind) (size hs : Nat)
    (hf : env.file = some content) (hr : env.probeReadOk = true)
    (hp : env.probeOk = true)
    (hpr : parse_header (env.probeOut.take HEADER_READ_UNCOMPRESSED_BYTES) =
      .ok (k, size, hs))
    (hk : k ≠ .Blob) (hm : env.metadataOk = true)
    (hbig : min HEADER_READ_COMPRESSED_BYTES content.length ≠ content.length)
    (hrx : env.readExactOk = true) :
    Db.find db id env =
      (.ok
        { kind := k,
          size := size,
          decompressed_data := (padTo HEADER_READ_UNCOMPRESSED_BYTES
            (env.probeOut.take HEADER_READ_UNCOMPRESSED_BYTES)),
          compressed_data := content,
          header_size := hs,
          opt_path := none,
          is_decompressed := env.probeDone },
      [.openF, .readProbe (min HEADER_READ_COMPRESSED_BYTES content.length),
       .inflateOnce (min env.probeOut.length HEADER_READ_UNCOMPRESSED_BYTES),
       .metadata, .reserveExact content.length,
       .readExact (content.length - min HEADER_READ_COMPRESSED_BYTES content.length)]) := by
  cases k
  case Blob => exact absurd rfl hk
  all_goals simp [Db.find, hf, hr, hp, hpr, hm, hbig, hrx]

theorem find_eq_nonblob_readfail (db : Db) (id : List Nat) (env : FsEnv)
    (content : List Nat) (k : Kind) (size hs : Nat)
    (hf : env.file = some content) (hr : env.probeReadOk = true)
    (hp : env.probeOk = true)
    (hpr : parse_header (env.probeOut.take HEADER_READ_UNCOMPRESSED_BYTES) =
      .ok (k, size, hs))
    (hk : k ≠ .Blob) (hm : env.metadataOk = true)
    (hbig : min HEADER_READ_COMPRESSED_BYTES content.length ≠ content.length)
    (hrx : env.readExactOk = false) :
    Db.find db id env =
      (.error (.Io "read" (sha1_path id db.path)),
      [.openF, .readProbe (min HEADER_READ_COMPRESSED_BYTES content.length),
       .inflateOnce (min env.probeOut.length HEADER_READ_UNCOMPRESSED_BYTES),
       .metadata, .reserveExact content.length,
       .readExact (content.length - min HEADER_READ_COMPRESSED_BYTES content.length)]) := by
  cases k
  case Blob => exact absurd rfl hk
  all_goals simp [Db.find, hf, hr, hp, hpr, hm, hbig, hrx]

theorem find_ok_opt_path_none (db : Db) (id : List Nat) (env : FsEnv)
    (content : List Nat) (k : Kind) (size hs : Nat)
    (hf : env.file = some content) (hr : env.probeReadOk = true)
    (hp : env.probeOk = true)
    (hpr : parse_header (env.probeOut.take HEADER_READ_UNCOMPRESSED_BYTES) =
      .ok (k, size, hs))
    (hk : k ≠ .Blob) (o : Object) (evs : List IOEvent)
    (hfind : Db.find db id env = (.ok o, evs)) : o.opt_path = none := by
  cases hm : env.metadataOk with
  | false =>
    rw [find_eq_nonblob_metafail db id env content k size hs
      hf hr hp hpr hk hm] at hfind
    exact absurd hfind (by simp)
  | true =>
    by_cases hsmall : min HEADER_READ_COMPRESSED_BYTES content.length =
        content.length
    · rw [find_eq_nonblob_small db id env content k size hs
        hf hr hp hpr hk hm hsmall] at hfind
      injection hfind with h1 h2
      injection h1 with h1
      rw [← h1]
    · cases hrx : env.readExactOk with
      | false =>
        rw [find_eq_nonblob_readfail db id env content k size hs
          hf hr hp hpr hk hm hsmall hrx] at hfind
        exact absurd hfind (by simp)
      | true =>
        rw [find_eq_nonblob_large db id env content k size hs
          hf hr hp hpr hk hm hsmall hrx] at hfind
        injection hfind with h1 h2
        injection h1 with h1
        rw [← h1]

/-! ### Claim C6: lazy blobs -/

/-- Claim C6 (confirmed): when the parsed kind is Blob, `find` performs only
the open, the bounded probe read and the single-shot probe decompression (no
metadata query, no reservation, no further read), keeps the probe-sized
compressed buffer instead of growing it to the file size, and the handle
retains the computed path; and every handle `find` returns with a non-Blob
kind has no retained path. -/
theorem claim6_lazy_blob (db : Db) (id : List Nat) (env : FsEnv)
    (content : List Nat)
    (hf : env.file = some content) (hr : env.probeReadOk = true)
    (hp : env.probeOk = true) :
    (∀ size hs,
      parse_header (env.probeOut.take HEADER_READ_UNCOMPRESSED_BYTES) =
        .ok (.Blob, size, hs) →
      ∃ o, Db.find db id env = (.ok o,
          [.openF, .readProbe (min HEADER_READ_COMPRESSED_BYTES content.length),
           .inflateOnce (min env.probeOut.length HEADER_READ_UNCOMPRESSED_BYTES)]) ∧
        o.opt_path = some (sha1_path id db.path) ∧
        o.compressed_data.length = HEADER_READ_COMPRESSED_BYTES ∧
        o.decompressed_data.length = HEADER_READ_UNCOMPRESSED_BYTES) ∧
    (∀ o evs, Db.find db id env = (.ok o, evs) → o.kind ≠ .Blob →
      o.opt_path = none) := by
  constructor
  · intro size hs hpr
    exact ⟨_, find_eq_blob db id env content size hs hf hr hp hpr, rfl,
      padTo_length _ _, padTo_length _ _⟩
  · intro o evs hfind hnb
    cases hpr : parse_header
        (env.probeOut.take HEADER_READ_UNCOMPRESSED_BYTES) with
    | error e =>
      rw [find_eq_parse_error db id env content e hf hr hp hpr] at hfind
      exact absurd hfind (by simp)
    | ok triple =>
      obtain ⟨k, size, hs⟩ := triple
      by_cases hkb : k = .Blob
      · subst hkb
        rw [find_eq_blob db id env content size hs hf hr hp hpr] at hfind
        injection hfind with h1 h2
        injection h1 with h1
        rw [← h1] at hnb
        exact absurd rfl hnb
      · exact find_ok_opt_path_none db id env content k size hs
          hf hr hp hpr hkb o evs hfind

/-- Witness for C6: looking up the small blob fixture touches only the three
probe steps and keeps the path; a 256-byte compressed and 512-byte
decompressed buffer remain. -/
theorem claim6_witness :
    ∃ o, Db.find ⟨[[114]]⟩ [] envC6 = (.ok o,
        [.openF, .readProbe 10, .inflateOnce 7]) ∧
      o.opt_path = some (sha1_path [] [[114]]) ∧
      o.compressed_data.length = HEADER_READ_COMPRESSED_BYTES ∧
      o.decompressed_data.length = HEADER_READ_UNCOMPRESSED_BYTES :=
  (claim6_lazy_blob ⟨[[114]]⟩ [] envC6 [1, 2, 3, 4, 5, 6, 7, 8, 9, 10]
    rfl rfl rfl).1 4 7 (by rfl)

/-! ### Claim C7: the non-blob read discipline -/

/-- Claim C7 (confirmed): for a parsed Tree/Commit/Tag kind, if the probe
read already covered the whole file, `find` does no content read beyond the
probe (only the metadata query that determines the file size); otherwise it
reserves exactly the file size, fills the remainder with one exact read so
the compressed buffer is the whole file content, and a failing remainder
read surfaces as `Io` with action `"read"` and the path. -/
theorem claim7_nonblob_read (db : Db) (id : List Nat) (env : FsEnv)
    (content : List Nat) (k : Kind) (size hs : Nat)
    (hf : env.file = some content) (hr : env.probeReadOk = true)
    (hp : env.probeOk = true)
    (hpr : parse_header (env.probeOut.take HEADER_READ_UNCOMPRESSED_BYTES) =
      .ok (k, size, hs))
    (hk : k ≠ .Blob) (hm : env.metadataOk = true) :
    (min HEADER_READ_COMPRESSED_BYTES content.length = content.length →
      Db.find db id env =
        (.ok
          { kind := k,
            size := size,
            decompressed_data := (padTo HEADER_READ_UNCOMPRESSED_BYTES
              (env.probeOut.take HEADER_READ_UNCOMPRESSED_BYTES)),
            compressed_data := (padTo HEADER_READ_COMPRESSED_BYTES
              (content.take (min HEADER_READ_COMPRESSED_BYTES content.length))),
            header_size := hs,
            opt_path := none,
            is_decompressed := env.probeDone },
        [.openF, .readProbe (min HEADER_READ_COMPRESSED_BYTES content.length),
         .inflateOnce (min env.probeOut.length HEADER_READ_UNCOMPRESSED_BYTES),
         .metadata])) ∧
    (min HEADER_READ_COMPRESSED_BYTES content.length ≠ content.length →
      env.readExactOk = true →
      ∃ o, Db.find db id env = (.ok o,
          [.openF, .readProbe (min HEADER_READ_COMPRESSED_BYTES content.length),
           .inflateOnce (min env.probeOut.length HEADER_READ_UNCOMPRESSED_BYTES),
           .metadata, .reserveExact content.length,
           .readExact (content.length -
             min HEADER_READ_COMPRESSED_BYTES content.length)]) ∧
        o.compressed_data = content ∧
        o.compressed_data.length = content.length) ∧
    (min HEADER_READ_COMPRESSED_BYTES content.length ≠ content.length →
      env.readExactOk = false →
      Db.find db id env = (.error (.Io "read" (sha1_path id db.path)),
        [.openF, .readProbe (min HEADER_READ_COMPRESSED_BYTES content.length),
         .inflateOnce (min env.probeOut.length HEADER_READ_UNCOMPRESSED_BYTES),
         .metadata, .reserveExact content.length,
         .readExact (content.length -
           min HEADER_READ_COMPRESSED_BYTES content.length)])) := by
  refine ⟨?_, ?_, ?_⟩
  · intro hsmall
    exact find_eq_nonblob_small db id env content k size hs
      hf hr hp hpr hk hm hsmall
  · intro hbig hrx
    exact ⟨_, find_eq_nonblob_large db id env content k size hs
      hf hr hp hpr hk hm hbig hrx, rfl, rfl⟩
  · intro hbig hrx
    exact find_eq_nonblob_readfail db id env content k size hs
      hf hr hp hpr hk hm hbig hrx

set_option maxRecDepth 4000 in
/-- Witness for C7: the 300-byte tag fixture exceeds the probe read, so
`find` reserves exactly 300 bytes, reads the remaining 44, and the handle
holds the whole file content as its compressed buffer. -/
theorem claim7_witness :
    ∃ o, Db.find ⟨[]⟩ [] envC7 = (.ok o,
        [.openF, .readProbe 256, .inflateOnce 8, .metadata, .reserveExact 300,
         .readExact 44]) ∧
      o.compressed_data = List.replicate 300 5 ∧
      o.compressed_data.length = (List.replicate 300 5).length :=
  (claim7_nonblob_read ⟨[]⟩ [] envC7 (List.replicate 300 5) .Tag 200 8
    rfl rfl rfl (by rfl) (by decide) rfl).2.1 (by decide) rfl

/-! ### Claim C10: header detection is confined to the probe -/

/-- Claim C10 (confirmed): `parse_header` is applied only to the bytes the
single-shot probe produced, so when that prefix contains no NUL byte, `find`
stops with `InvalidHeader` right after the probe: no metadata query, no
reservation, no further read or decompression happens. -/
theorem claim10_header_confined (db : Db) (id : List Nat) (env : FsEnv)
    (content : List Nat)
    (hf : env.file = some content) (hr : env.probeReadOk = true)
    (hp : env.probeOk = true)
    (hnonul : ∀ b ∈ env.probeOut.take HEADER_READ_UNCOMPRESSED_BYTES, b ≠ 0) :
    Db.find db id env =
      (.error (.InvalidHeader "Did not find 0 byte in header"),
       [.openF, .readProbe (min HEADER_READ_COMPRESSED_BYTES content.length),
        .inflateOnce (min env.probeOut.length HEADER_READ_UNCOMPRESSED_BYTES)]) :=
  find_eq_parse_error db id env content _ hf hr hp
    (parse_header_no_nul _ hnonul)

/-- Witness for C10: a probe output of three non-NUL bytes makes `find`
return `InvalidHeader` after exactly the three probe steps. -/
theorem claim10_witness :
    Db.find ⟨[]⟩ [] envC10 =
      (.error (.InvalidHeader "Did not find 0 byte in header"),
       [.openF, .readProbe 2, .inflateOnce 3]) :=
  claim10_header_confined ⟨[]⟩ [] envC10 [9, 9] rfl rfl rfl (by decide)

end Loose
